import Mathlib

/-!
# Verification of `prody/atomic/residue.py` (the `Residue` view class)

A shallow embedding of the `Residue` class from `src/prody/atomic/residue.py`
together with the minimal interfaces of its collaborators (the shared atom
store, the hierarchy index, chains, and single-atom views), followed by
theorems settling the specified properties of the class.

The atom store is modelled as columnar storage (one entry per atom row).
Columns the Python code indexes without a `None` check (`resnums`,
`resindices`, `names`) are total lists; columns the code guards with
`if data is not None` (`resnames`, `icodes`, `chids`, `segnames`) are
`Option` lists.  Partial list indexing (`data[self._indices[0]]`) is
embedded with `List.getD`; theorems whose truth depends on an in-bounds
read carry the corresponding well-formedness hypothesis.
-/

namespace ProDy

/-- A Python value passed as a lookup key: either a `str` or a non-string
value (`int`, `None`, or anything else), mirroring the dynamic typing of
`Residue.getAtom`'s `name` argument and its `isinstance(name, str)` test. -/
inductive PyKey where
  | str (s : String)
  | int (n : Int)
  | pyNone
  | other
  deriving DecidableEq, Repr

/-- Whether a `PyKey` is a Python `str`. -/
def PyKey.isStr : PyKey → Bool
  | PyKey.str _ => true
  | _ => false

/-- The shared columnar atom store (`AtomGroup` in the source; external
collaborator `AtomStore` in the spec).  One entry per atom row. -/
structure AtomGroup where
  title : String
  nCoordsets : Nat
  /-- Store-level active coordinate-set index. -/
  acsi : Nat
  resnums : List Int
  resnames : Option (List String)
  icodes : Option (List String)
  chids : Option (List String)
  segnames : Option (List String)
  resindices : List Int
  names : List String
  deriving DecidableEq, Repr

/-- Modelled from the spec: the `Chain` collaborator is not under `src/`;
per the spec a chain's selection string "itself composes its segment's,
etc., contracted elsewhere", so a chain is carried as its identifier plus
its (opaque, already-composed) selection string. -/
structure Chain where
  chid : String
  selstr : String
  deriving DecidableEq, Repr

/-- Modelled from the spec: `Chain.getSelstr` of the external `Chain`
collaborator, contracted to the chain's stored selection string. -/
def Chain.getSelstr (c : Chain) : String := c.selstr

/-- Modelled from the spec: the `HierView` collaborator (spec:
`HierarchyIndex`) is not under `src/`.  It maps residue ordinal positions
to their atom-index sets and chain identifiers to chain objects, and
carries the active-coordset override handed to residues it creates. -/
structure HierView where
  acsi : Option Nat
  chains : List Chain
  resIndexSets : List (List Nat)
  deriving DecidableEq, Repr

/-- Modelled from the spec: `HierarchyIndex.getChain(chid) -> Chain|None`
(spec §6), a lookup of the chain object with the given identifier. -/
def HierView.getChain (hv : HierView) (chid : String) : Option Chain :=
  hv.chains.find? (fun c => c.chid == chid)

/-- The `Residue` view (the core under specification): a reference to the
shared store, the ordered atom indices it holds, the owning hierarchy
index, an optional active-coordset override, and an optional inherited
parent-selection fragment (`self._selstr`). -/
structure Residue where
  ag : AtomGroup
  indices : List Nat
  hv : HierView
  acsi : Option Nat
  selstr : Option String
  deriving DecidableEq, Repr

/-- Modelled from the spec: the single-atom view (`Atom`) collaborator,
constructed as `(store, atomIndex, snapshotOverride)` (spec §6). -/
structure Atom where
  ag : AtomGroup
  index : Nat
  acsi : Nat
  deriving DecidableEq, Repr

/-- Python truthiness of the optional parent-selection fragment:
`None` and the empty string are falsy. -/
def pyTruthy : Option String → Bool
  | none => false
  | some s => s ≠ ""

/-- Modelled from the spec: `AtomPointer.getACSIndex` (inherited, not under
`src/`) — "an active-snapshot index override (optional; defaults to the
store's active snapshot)". -/
def Residue.getACSIndex (r : Residue) : Nat :=
  r.acsi.getD r.ag.acsi

/-- Embeds `Residue.getResnum`: residue-number column at the first held index. -/
def Residue.getResnum (r : Residue) : Int :=
  r.ag.resnums.getD (r.indices.headD 0) 0

/-- Embeds `Residue.getResname`: residue-name column at the first held index,
`none` when the column is absent. -/
def Residue.getResname (r : Residue) : Option String :=
  r.ag.resnames.map (fun data => data.getD (r.indices.headD 0) "")

/-- Embeds `Residue.getIcode`: insertion-code column at the first held index,
`none` when the column is absent. -/
def Residue.getIcode (r : Residue) : Option String :=
  r.ag.icodes.map (fun data => data.getD (r.indices.headD 0) "")

/-- Embeds `Residue.getResindex`: residue-index column at the first held index. -/
def Residue.getResindex (r : Residue) : Int :=
  r.ag.resindices.getD (r.indices.headD 0) 0

/-- Embeds `Residue.getChid`: chain-identifier column at the first held index,
`none` when the column is absent. -/
def Residue.getChid (r : Residue) : Option String :=
  r.ag.chids.map (fun chids => chids.getD (r.indices.headD 0) "")

/-- Embeds `Residue.getSegname`: segment-name column at the first held index,
`none` when the column is absent. -/
def Residue.getSegname (r : Residue) : Option String :=
  r.ag.segnames.map (fun segnames => segnames.getD (r.indices.headD 0) "")

/-- Embeds `Residue.getChain`: resolve the chain identifier and, when present,
look the chain object up in the hierarchy index. -/
def Residue.getChain (r : Residue) : Option Chain :=
  match r.getChid with
  | none => none
  | some chid => r.hv.getChain chid

/-- Modelled from the spec: `AtomSubset.getNames` (inherited, not under
`src/`) — the atom-name column read at every held index, in held order. -/
def Residue.getNames (r : Residue) : List String :=
  r.indices.map (fun i => r.ag.names.getD i "")

/-- Embeds `Residue.getAtom`: compute the active coordset index; when the key is a
`str`, take the first position of the held-order name list equal to it
(`(self.getNames() == name).nonzero()[0]` then `nz[0]`) and return an
`Atom` bound to the held index at that position; otherwise fall through to
`None`. -/
def Residue.getAtom (r : Residue) (name : PyKey) : Option Atom :=
  let acsi := r.getACSIndex
  match name with
  | PyKey.str s =>
    match r.getNames.findIdx? (fun nm => nm == s) with
    | some p => some { ag := r.ag, index := r.indices.getD p 0, acsi := acsi }
    | none => none
  | _ => none

/-- Embeds `Residue.__getitem__`, defined in the source as an alias of
`getAtom` (`__getitem__ = getAtom`). -/
def Residue.getitem : Residue → PyKey → Option Atom :=
  Residue.getAtom

/-- Writes `v` at every listed position of a column (the numpy broadcast
`data[self._indices] = value`). -/
def writeAll (col : List Int) (idxs : List Nat) (v : Int) : List Int :=
  idxs.foldl (fun c i => c.set i v) col

/-- Modelled from the spec: `AtomSubset.setResnums` (inherited, not under
`src/`) — "writes `n` into the residue-number column at every held index".
`Residue.setResnum` delegates to it; the mutation is embedded by returning
the residue with the updated shared store. -/
def Residue.setResnum (r : Residue) (v : Int) : Residue :=
  { r with ag := { r.ag with resnums := writeAll r.ag.resnums r.indices v } }

/-- Embeds `Residue.getSelstr`: selection-string composition, embedded with the
source's exact format strings.  In the chainless branch with a truthy
`self._selstr`, the source's template is `'resnum {0}{1} and ({1})'`
applied to `(resnum, icode, self._selstr)`: slot `{1}` (the icode) is
interpolated twice and the third argument is never used. -/
def Residue.getSelstr (r : Residue) : String :=
  let icode := r.getIcode.getD ""
  match r.getChain with
  | none =>
    if pyTruthy r.selstr then
      "resnum " ++ toString r.getResnum ++ icode ++ " and (" ++ icode ++ ")"
    else
      "resnum " ++ toString r.getResnum ++ icode
  | some chain =>
      "resnum " ++ toString r.getResnum ++ icode ++ " and ("
        ++ chain.getSelstr ++ ")"

/-- Modelled from the spec: `HierarchyIndex.getResidueByIndex(i) ->
Residue|None` ("must be total: out-of-range → nothing, never an unhandled
failure", spec §6); the residue at ordinal `i` is built over that
ordinal's atom-index set with the hierarchy view's coordset override. -/
def HierView.getResidueAt (hv : HierView) (ag : AtomGroup) (i : Int) :
    Option Residue :=
  if 0 ≤ i ∧ i.toNat < hv.resIndexSets.length then
    some { ag := ag, indices := hv.resIndexSets.getD i.toNat [], hv := hv,
           acsi := hv.acsi, selstr := none }
  else none

/-- Embeds `Residue.getPrev`: compute `getResindex() - 1`; if negative return
`None`, else ask the hierarchy index for the residue at that ordinal. -/
def Residue.getPrev (r : Residue) : Option Residue :=
  let nextIndex := r.getResindex - 1
  if nextIndex < 0 then none
  else r.hv.getResidueAt r.ag nextIndex

/-- Embeds `Residue.getNext`: ask the hierarchy index for the residue at
`getResindex() + 1` (no explicit guard in the source; the lookup itself
is total). -/
def Residue.getNext (r : Residue) : Option Residue :=
  r.hv.getResidueAt r.ag (r.getResindex + 1)

/-- Embeds `Residue.__str__`: `"{name} {num}{icode}"`, formatting an absent
residue-name column the way Python's `str.format` renders `None`. -/
def Residue.strForm (r : Residue) : String :=
  (match r.getResname with | none => "None" | some s => s)
    ++ " " ++ toString r.getResnum ++ r.getIcode.getD ""

/-- Embeds `Residue.__repr__`, embedded with the source's three format strings:
the chain clause is `''` when `getChid()` is `None` and
`' from Chain {chid}'` otherwise, and the variant is selected on the
store's coordset count. -/
def Residue.reprForm (r : Residue) : String :=
  let nCsets := r.ag.nCoordsets
  let chain := match r.getChid with
    | none => ""
    | some c => " from Chain " ++ c
  let name := match r.getResname with | none => "None" | some s => s
  if nCsets = 1 then
    "<Residue: " ++ name ++ " " ++ toString r.getResnum
      ++ r.getIcode.getD "" ++ chain ++ " from " ++ r.ag.title
      ++ " (" ++ toString r.indices.length ++ " atoms)>"
  else if nCsets > 1 then
    "<Residue: " ++ name ++ " " ++ toString r.getResnum
      ++ r.getIcode.getD "" ++ chain ++ " from " ++ r.ag.title
      ++ " (" ++ toString r.indices.length ++ " atoms; active #"
      ++ toString r.getACSIndex ++ " of " ++ toString nCsets
      ++ " coordsets)>"
  else
    "<Residue: " ++ name ++ " " ++ toString r.getResnum
      ++ r.getIcode.getD "" ++ chain ++ " from " ++ r.ag.title
      ++ " (" ++ toString r.indices.length ++ " atoms; no coordinates)>"

/-- Spec-side rendering of the common representation prefix, written from
the spec's words: `"<Residue: {name} {num}{icode} from Chain {chid} from
{title} ({n} atoms"`, with the chain clause omitted entirely when no chain
identifier exists.  Used to compare the source's three monolithic format
strings against the spec's prefix-plus-suffix description. -/
def specReprStem (r : Residue) : String :=
  "<Residue: " ++ (match r.getResname with | none => "None" | some s => s)
    ++ " " ++ toString r.getResnum ++ r.getIcode.getD ""
    ++ (match r.getChid with | none => "" | some c => " from Chain " ++ c)
    ++ " from " ++ r.ag.title ++ " (" ++ toString r.indices.length
    ++ " atoms"

/-- Coherence of a hierarchy view with its store: the residue it holds at
ordinal `i` has residue-index column value `i` at its first atom index
(spec §3: the residue-index value "is the Residue's identity key within
the HierarchyIndex ordering"; glossary: a global, zero-based, contiguous
ordinal assigned by hierarchy construction). -/
def HierView.Coherent (hv : HierView) (ag : AtomGroup) : Prop :=
  ∀ i < hv.resIndexSets.length,
    ag.resindices.getD ((hv.resIndexSets.getD i []).headD 0) 0 = (i : Int)

instance (hv : HierView) (ag : AtomGroup) : Decidable (hv.Coherent ag) :=
  decidable_of_iff
    (∀ i < hv.resIndexSets.length,
      ag.resindices.getD ((hv.resIndexSets.getD i []).headD 0) 0 = (i : Int))
    Iff.rfl

/-! ## Concrete instances used as evaluation witnesses -/

/-- A one-residue store whose residue (number 42, no insertion code) lies
on chain `A`. -/
def agA : AtomGroup :=
  { title := "prot"
    nCoordsets := 1
    acsi := 0
    resnums := [42, 42, 42]
    resnames := some ["ALA", "ALA", "ALA"]
    icodes := some ["", "", ""]
    chids := some ["A", "A", "A"]
    segnames := none
    resindices := [0, 0, 0]
    names := ["N", "CA", "C"] }

/-- Hierarchy view over `agA` with a single chain `A`. -/
def hvA : HierView :=
  { acsi := none
    chains := [{ chid := "A", selstr := "chain A" }]
    resIndexSets := [[0, 1, 2]] }

/-- The residue view over all of `agA`. -/
def resA : Residue :=
  { ag := agA, indices := [0, 1, 2], hv := hvA, acsi := none, selstr := none }

/-- A chainless one-residue store (number 7, insertion code `B`). -/
def agB : AtomGroup :=
  { title := "prot"
    nCoordsets := 1
    acsi := 0
    resnums := [7, 7]
    resnames := some ["GLY", "GLY"]
    icodes := some ["B", "B"]
    chids := none
    segnames := none
    resindices := [0, 0]
    names := ["N", "CA"] }

/-- Hierarchy view over `agB` (no chains). -/
def hvB : HierView := { acsi := none, chains := [], resIndexSets := [[0, 1]] }

/-- The chainless residue view over `agB`, no inherited fragment. -/
def resB : Residue :=
  { ag := agB, indices := [0, 1], hv := hvB, acsi := none, selstr := none }

/-- The chainless residue view over `agB` carrying a non-empty inherited
parent-selection fragment. -/
def resC : Residue := { resB with selstr := some "name CA" }

/-- The display example from the spec: residue `ALA` number 5, no
insertion code, no chain, 5 atoms, store titled `prot`, one snapshot. -/
def agD : AtomGroup :=
  { title := "prot"
    nCoordsets := 1
    acsi := 0
    resnums := [5, 5, 5, 5, 5]
    resnames := some ["ALA", "ALA", "ALA", "ALA", "ALA"]
    icodes := none
    chids := none
    segnames := none
    resindices := [0, 0, 0, 0, 0]
    names := ["N", "CA", "C", "O", "CB"] }

/-- Variant of `agD` with zero coordinate snapshots. -/
def agD0 : AtomGroup := { agD with nCoordsets := 0 }

/-- Variant of `agD` with three coordinate snapshots, the second active. -/
def agD2 : AtomGroup := { agD with nCoordsets := 3, acsi := 1 }

/-- Hierarchy view over `agD` (no chains). -/
def hvD : HierView :=
  { acsi := none, chains := [], resIndexSets := [[0, 1, 2, 3, 4]] }

/-- The `ALA 5` residue view over `agD` (one snapshot). -/
def resD : Residue :=
  { ag := agD, indices := [0, 1, 2, 3, 4], hv := hvD, acsi := none
    selstr := none }

/-- The `ALA 5` residue view over the zero-snapshot store. -/
def resD0 : Residue := { resD with ag := agD0 }

/-- The `ALA 5` residue view over the three-snapshot store. -/
def resD2 : Residue := { resD with ag := agD2 }

/-- A store whose single residue holds two atoms sharing the name `CA`
(at atom indices 0 and 2), to exercise lowest-index name lookup. -/
def agE : AtomGroup :=
  { title := "dup"
    nCoordsets := 1
    acsi := 0
    resnums := [9, 9, 9]
    resnames := none
    icodes := none
    chids := none
    segnames := none
    resindices := [0, 0, 0]
    names := ["CA", "N", "CA"] }

/-- Hierarchy view over `agE` (no chains). -/
def hvE : HierView := { acsi := none, chains := [], resIndexSets := [[0, 1, 2]] }

/-- The duplicate-name residue view over `agE`. -/
def resE : Residue :=
  { ag := agE, indices := [0, 1, 2], hv := hvE, acsi := none, selstr := none }

/-- A three-residue store for navigation: residue ordinals 0, 1, 2 hold
atom indices `[0]`, `[1, 2]`, `[3]` respectively. -/
def agF : AtomGroup :=
  { title := "nav"
    nCoordsets := 1
    acsi := 0
    resnums := [1, 2, 2, 3]
    resnames := none
    icodes := none
    chids := none
    segnames := none
    resindices := [0, 1, 1, 2]
    names := ["A", "B", "C", "D"] }

/-- Hierarchy view over `agF` with three residue ordinals. -/
def hvF : HierView :=
  { acsi := none, chains := [], resIndexSets := [[0], [1, 2], [3]] }

/-- The first residue of `agF`. -/
def resF0 : Residue :=
  { ag := agF, indices := [0], hv := hvF, acsi := none, selstr := none }

/-- The middle (non-boundary) residue of `agF`. -/
def resF1 : Residue :=
  { ag := agF, indices := [1, 2], hv := hvF, acsi := none, selstr := none }

/-- The last residue of `agF`. -/
def resF2 : Residue :=
  { ag := agF, indices := [3], hv := hvF, acsi := none, selstr := none }

end ProDy

namespace ProDy

/-! ## Helper lemmas about broadcast column writes -/

theorem writeAll_cons (col : List Int) (i : Nat) (is : List Nat) (v : Int) :
    writeAll col (i :: is) v = writeAll (col.set i v) is v := rfl

theorem writeAll_length (col : List Int) (idxs : List Nat) (v : Int) :
    (writeAll col idxs v).length = col.length := by
  induction idxs generalizing col with
  | nil => rfl
  | cons i is ih => rw [writeAll_cons, ih, List.length_set]

theorem writeAll_getD_not_mem (col : List Int) (idxs : List Nat) (v : Int)
    (j : Nat) (hj : j ∉ idxs) : (writeAll col idxs v).getD j 0 = col.getD j 0 := by
  induction idxs generalizing col with
  | nil => rfl
  | cons i is ih =>
    rw [writeAll_cons, ih _ (fun h => hj (List.mem_cons_of_mem _ h))]
    simp only [List.getD_eq_getElem?_getD]
    rw [List.getElem?_set_ne (fun h => hj (List.mem_cons.mpr (Or.inl h.symm)))]

theorem writeAll_getD_mem (col : List Int) (idxs : List Nat) (v : Int)
    (j : Nat) (hj : j ∈ idxs) (hlen : j < col.length) :
    (writeAll col idxs v).getD j 0 = v := by
  induction idxs generalizing col with
  | nil => exact absurd hj (List.not_mem_nil j)
  | cons i is ih =>
    rw [writeAll_cons]
    by_cases hmem : j ∈ is
    · exact ih _ hmem (by rw [List.length_set]; exact hlen)
    · have hji : j = i := by
        rcases List.mem_cons.mp hj with h | h
        · exact h
        · exact absurd h hmem
      rw [writeAll_getD_not_mem _ _ _ _ hmem]
      subst hji
      simp only [List.getD_eq_getElem?_getD]
      rw [List.getElem?_set_self hlen]
      rfl

theorem headD_mem_of_ne_nil {l : List Nat} (h : l ≠ []) : l.headD 0 ∈ l := by
  cases l with
  | nil => exact absurd rfl h
  | cons a as => exact List.mem_cons_self a as

/-- C3: after `R.setResnum(v)`, `R.getResnum()` returns `v` and the
residue-number column of the shared store holds `v` at every atom index
held by R: the write is broadcast to all held indices. -/
theorem setResnum_broadcast (r : Residue) (v : Int)
    (h1 : r.indices ≠ [])
    (h2 : ∀ i ∈ r.indices, i < r.ag.resnums.length) :
    (r.setResnum v).getResnum = v ∧
      ∀ i ∈ r.indices, (r.setResnum v).ag.resnums.getD i 0 = v := by
  constructor
  · have hmem : r.indices.headD 0 ∈ r.indices := headD_mem_of_ne_nil h1
    exact writeAll_getD_mem _ _ _ _ hmem (h2 _ hmem)
  · intro i hi
    exact writeAll_getD_mem _ _ _ _ hi (h2 _ hi)

end ProDy

namespace ProDy

/-- Witness for `setResnum_broadcast` at a concrete residue and value. -/
theorem setResnum_broadcast_witness :
    (resA.setResnum 99).getResnum = 99 ∧
      (resA.setResnum 99).ag.resnums.getD 1 0 = 99 :=
  ⟨(setResnum_broadcast resA 99 (by decide) (by decide)).1,
   (setResnum_broadcast resA 99 (by decide) (by decide)).2 1 (by decide)⟩

/-- C1: for the chainless residue `resC`, which carries the non-empty
inherited fragment `"name CA"` and has residue number 7 and insertion
code `B`, `getSelstr` as written returns `"resnum 7B and (B)"` — the
insertion code, not the fragment, is interpolated into the parentheses —
instead of the intended `"resnum 7B and (name CA)"`. -/
theorem getSelstr_fragment_interpolation_bug :
    resC.getChain = none ∧ pyTruthy resC.selstr = true ∧
      resC.getSelstr = "resnum 7B and (B)" ∧
      resC.getSelstr ≠ "resnum 7B and (name CA)" := by
  refine ⟨rfl, rfl, rfl, ?_⟩
  decide

/-- C2: for a residue whose residue index equals the last residue index
known to the hierarchy view, `getNext` returns nothing. -/
theorem getNext_at_last (r : Residue)
    (h : r.getResindex = (r.hv.resIndexSets.length : Int) - 1) :
    r.getNext = none := by
  unfold Residue.getNext HierView.getResidueAt
  rw [h, if_neg]
  omega

/-- Witness for `getNext_at_last` at the single-residue store `agB`. -/
theorem getNext_at_last_witness : resB.getNext = none :=
  getNext_at_last resB (by decide)

/-- C5: indexing a residue with the bracket operator is the same
operation as calling `getAtom`; the source defines
`__getitem__ = getAtom`. -/
theorem getitem_eq_getAtom :
    ∀ (r : Residue) (k : PyKey), r.getitem k = r.getAtom k :=
  fun _ _ => rfl

/-- C6: `getPrev` computes `getResindex() - 1`; when that is negative it
returns nothing (for any hierarchy view), and otherwise it returns
whatever the hierarchy view holds at that ordinal. -/
theorem getPrev_boundary (r : Residue) :
    (r.getResindex - 1 < 0 → r.getPrev = none) ∧
    (0 ≤ r.getResindex - 1 →
      r.getPrev = r.hv.getResidueAt r.ag (r.getResindex - 1)) := by
  constructor
  · intro h
    unfold Residue.getPrev
    simp only [if_pos h]
  · intro h
    unfold Residue.getPrev
    simp only [if_neg (Int.not_lt.mpr h)]

/-- Witness for `getPrev_boundary`: nothing at residue index 0, and
delegation to the hierarchy view at the middle residue of `agF`. -/
theorem getPrev_boundary_witness :
    resA.getPrev = none ∧
      resF1.getPrev = resF1.hv.getResidueAt resF1.ag (resF1.getResindex - 1) :=
  ⟨(getPrev_boundary resA).1 (by decide),
   (getPrev_boundary resF1).2 (by decide)⟩

/-- C7: with a chain, `getSelstr` returns
`"resnum {num}{icode} and ({chain.getSelstr()})"`; chainless with no
inherited fragment it returns `"resnum {num}{icode}"`. -/
theorem getSelstr_composition (r : Residue) :
    (∀ c, r.getChain = some c →
      r.getSelstr = "resnum " ++ toString r.getResnum ++ r.getIcode.getD ""
        ++ " and (" ++ c.getSelstr ++ ")") ∧
    (r.getChain = none → pyTruthy r.selstr = false →
      r.getSelstr = "resnum " ++ toString r.getResnum ++ r.getIcode.getD "") := by
  constructor
  · intro c hc
    unfold Residue.getSelstr
    rw [hc]
  · intro hc hs
    unfold Residue.getSelstr
    rw [hc]
    simp only [hs, Bool.false_eq_true, if_false]

/-- Witness for `getSelstr_composition`: residue number 42 on chain `A`
with no insertion code, and chainless residue number 7 with insertion
code `B`. -/
theorem getSelstr_composition_witness :
    resA.getSelstr = "resnum 42 and (chain A)" ∧
      resB.getSelstr = "resnum 7B" := by
  constructor
  · rw [(getSelstr_composition resA).1 { chid := "A", selstr := "chain A" }
      (by decide)]
    rfl
  · rw [(getSelstr_composition resB).2 (by decide) (by decide)]
    rfl

/-- C10: `getAtom` (and hence bracket indexing) applied to any non-string
key returns nothing, for every residue, with no failure. -/
theorem getAtom_nonstring (r : Residue) (k : PyKey)
    (h : k.isStr = false) :
    r.getAtom k = none ∧ r.getitem k = none := by
  have hnone : r.getAtom k = none := by
    cases k with
    | str s => simp [PyKey.isStr] at h
    | int n => rfl
    | pyNone => rfl
    | other => rfl
  exact ⟨hnone, hnone⟩

/-- Witness for `getAtom_nonstring` at an integer key and at an opaque
non-string key. -/
theorem getAtom_nonstring_witness :
    resA.getAtom (PyKey.int 1) = none ∧ resA.getitem PyKey.other = none :=
  ⟨(getAtom_nonstring resA (PyKey.int 1) rfl).1,
   (getAtom_nonstring resA PyKey.other rfl).2⟩

end ProDy

namespace ProDy

/-- Helper: over a coherent hierarchy view, the lookup at an in-range
ordinal succeeds and yields a residue whose residue index is that
ordinal, over the same store and view. -/
theorem getResidueAt_spec (hv : HierView) (ag : AtomGroup)
    (hco : hv.Coherent ag) (i : Int) (h0 : 0 ≤ i)
    (h1 : i < (hv.resIndexSets.length : Int)) :
    ∃ r', hv.getResidueAt ag i = some r' ∧ r'.getResindex = i ∧
      r'.hv = hv ∧ r'.ag = ag := by
  have hlt : i.toNat < hv.resIndexSets.length := by omega
  unfold HierView.getResidueAt
  rw [if_pos ⟨h0, hlt⟩]
  refine ⟨_, rfl, ?_, rfl, rfl⟩
  unfold Residue.getResindex
  have := hco i.toNat hlt
  simp only at this ⊢
  rw [this]
  omega

/-- C9: over a coherent hierarchy view, a non-boundary residue's
successor's predecessor has the residue's own residue index, and
symmetrically; at residue index 0 `getPrev` is nothing and at the last
residue index `getNext` is nothing. -/
theorem navigation_symmetry (r : Residue)
    (hco : r.hv.Coherent r.ag) :
    (0 < r.getResindex →
      r.getResindex < (r.hv.resIndexSets.length : Int) - 1 →
      (r.getNext.bind Residue.getPrev).map Residue.getResindex
          = some r.getResindex ∧
        (r.getPrev.bind Residue.getNext).map Residue.getResindex
          = some r.getResindex) ∧
    (r.getResindex = 0 → r.getPrev = none) ∧
    (r.getResindex = (r.hv.resIndexSets.length : Int) - 1 →
      r.getNext = none) := by
  refine ⟨?_, ?_, ?_⟩
  · intro h0 h1
    constructor
    · obtain ⟨rn, hrn, hrni, hrnhv, hrnag⟩ :=
        getResidueAt_spec r.hv r.ag hco (r.getResindex + 1)
          (by omega) (by omega)
      have hnext : r.getNext = some rn := hrn
      have hco' : rn.hv.Coherent rn.ag := by rw [hrnhv, hrnag]; exact hco
      obtain ⟨rp, hrp, hrpi, _, _⟩ :=
        getResidueAt_spec rn.hv rn.ag hco' (rn.getResindex - 1)
          (by omega) (by rw [hrnhv]; omega)
      have hprev : rn.getPrev = some rp := by
        unfold Residue.getPrev
        rw [if_neg (by omega)]
        exact hrp
      rw [hnext]
      show (rn.getPrev).map Residue.getResindex = some r.getResindex
      rw [hprev]
      show some rp.getResindex = some r.getResindex
      rw [hrpi, hrni]
      congr 1
      omega
    · obtain ⟨rp, hrp, hrpi, hrphv, hrpag⟩ :=
        getResidueAt_spec r.hv r.ag hco (r.getResindex - 1)
          (by omega) (by omega)
      have hprev : r.getPrev = some rp := by
        unfold Residue.getPrev
        rw [if_neg (by omega)]
        exact hrp
      have hco' : rp.hv.Coherent rp.ag := by rw [hrphv, hrpag]; exact hco
      obtain ⟨rn, hrn, hrni, _, _⟩ :=
        getResidueAt_spec rp.hv rp.ag hco' (rp.getResindex + 1)
          (by omega) (by rw [hrphv]; omega)
      have hnext : rp.getNext = some rn := hrn
      rw [hprev]
      show (rp.getNext).map Residue.getResindex = some r.getResindex
      rw [hnext]
      show some rn.getResindex = some r.getResindex
      rw [hrni, hrpi]
      congr 1
      omega
  · intro h
    unfold Residue.getPrev
    rw [h, if_pos (by norm_num)]
  · intro h
    unfold Residue.getNext HierView.getResidueAt
    rw [h, if_neg]
    omega

/-- Witness for `navigation_symmetry` on a three-residue store: the
middle residue round-trips, the first has no predecessor, the last has
no successor. -/
theorem navigation_symmetry_witness :
    ((resF1.getNext.bind Residue.getPrev).map Residue.getResindex
        = some resF1.getResindex ∧
      (resF1.getPrev.bind Residue.getNext).map Residue.getResindex
        = some resF1.getResindex) ∧
      resF0.getPrev = none ∧ resF2.getNext = none :=
  ⟨(navigation_symmetry resF1 (by decide)).1 (by decide) (by decide),
   (navigation_symmetry resF0 (by decide)).2.1 (by decide),
   (navigation_symmetry resF2 (by decide)).2.2 (by decide)⟩

end ProDy

namespace ProDy

/-- C8: the textual representation varies exactly with the store's
snapshot count: one snapshot closes the common prefix with `")>"`, zero
snapshots suffix it with `"; no coordinates)>"`, and more than one
snapshot suffixes it with the active-index/total-count clause. -/
theorem reprForm_variants (r : Residue) :
    (r.ag.nCoordsets = 1 → r.reprForm = specReprStem r ++ ")>") ∧
    (r.ag.nCoordsets = 0 →
      r.reprForm = specReprStem r ++ "; no coordinates)>") ∧
    (1 < r.ag.nCoordsets →
      r.reprForm = specReprStem r ++ "; active #"
        ++ toString r.getACSIndex ++ " of " ++ toString r.ag.nCoordsets
        ++ " coordsets)>") := by
  refine ⟨?_, ?_, ?_⟩ <;> intro h
  · unfold Residue.reprForm specReprStem
    rw [if_pos h]
    simp [String.append_assoc]
  · unfold Residue.reprForm specReprStem
    rw [if_neg (by omega), if_neg (by omega)]
    simp [String.append_assoc]
  · unfold Residue.reprForm specReprStem
    rw [if_neg (by omega), if_pos h]
    simp [String.append_assoc]

/-- Witness for `reprForm_variants`: the `ALA 5` residue of the spec's
display example, over stores with one, zero, and three snapshots. -/
theorem reprForm_variants_witness :
    resD.reprForm = "<Residue: ALA 5 from prot (5 atoms)>" ∧
      resD0.reprForm = "<Residue: ALA 5 from prot (5 atoms; no coordinates)>" ∧
      resD2.reprForm
        = "<Residue: ALA 5 from prot (5 atoms; active #1 of 3 coordsets)>" := by
  refine ⟨?_, ?_, ?_⟩
  · rw [(reprForm_variants resD).1 rfl]; rfl
  · rw [(reprForm_variants resD0).2.1 rfl]; rfl
  · rw [(reprForm_variants resD2).2.2 (by decide)]; rfl

end ProDy


namespace ProDy

/-- C4: for a residue with strictly increasing held indices (the store
order of the data model), a string lookup that returns an atom returns
one bound to the smallest held atom index whose name-column entry equals
the key, over the same store, carrying the residue's active coordset
index; a lookup that returns nothing means no held atom has that name. -/
theorem getAtom_lowest_match (r : Residue) (s : String)
    (hs : r.indices.Pairwise (fun a b => a < b)) :
    (∀ a, r.getAtom (PyKey.str s) = some a →
        a.ag = r.ag ∧ a.acsi = r.getACSIndex ∧ a.index ∈ r.indices ∧
        r.ag.names.getD a.index "" = s ∧
        ∀ j ∈ r.indices, r.ag.names.getD j "" = s → a.index ≤ j) ∧
    (r.getAtom (PyKey.str s) = none →
      ∀ j ∈ r.indices, r.ag.names.getD j "" ≠ s) := by
  constructor
  · intro a ha
    simp only [Residue.getAtom] at ha
    cases hfi : r.getNames.findIdx? (fun nm => nm == s) with
    | none => rw [hfi] at ha; exact absurd ha (by simp)
    | some p =>
      rw [hfi] at ha
      obtain ⟨hp, hps, hmin⟩ := List.findIdx?_eq_some_iff_getElem.mp hfi
      have hlen : r.getNames.length = r.indices.length :=
        List.length_map _ _
      have hp' : p < r.indices.length := hlen ▸ hp
      have hnp : r.getNames[p] = r.ag.names.getD r.indices[p] "" := by
        simp [Residue.getNames]
      have hgd : r.indices.getD p 0 = r.indices[p] := by
        simp [List.getD_eq_getElem?_getD, List.getElem?_eq_getElem hp']
      have ha' : a = { ag := r.ag, index := r.indices.getD p 0
                       acsi := r.getACSIndex } := by
        simpa using ha.symm
      subst ha'
      refine ⟨rfl, rfl, ?_, ?_, ?_⟩
      · simp only [hgd]
        exact List.getElem_mem hp'
      · simp only [hgd]
        rw [hnp] at hps
        exact eq_of_beq hps
      · intro j hj hname
        obtain ⟨q, hq, hjq⟩ := List.getElem_of_mem hj
        rcases Nat.lt_trichotomy q p with hqp | hqp | hqp
        · exfalso
          have hq2 : q < r.getNames.length := by omega
          have hnq : r.getNames[q] = r.ag.names.getD r.indices[q] "" := by
            simp [Residue.getNames]
          exact hmin q hqp
            (by rw [hnq, hjq, hname]; exact beq_self_eq_true s)
        · subst hqp
          simp only [hgd]
          exact Nat.le_of_eq hjq
        · have hmono := List.pairwise_iff_getElem.mp hs p q hp' hq hqp
          simp only [hgd]
          rw [hjq] at hmono
          exact Nat.le_of_lt hmono
  · intro hnone j hj hname
    simp only [Residue.getAtom] at hnone
    cases hfi : r.getNames.findIdx? (fun nm => nm == s) with
    | some p => rw [hfi] at hnone; exact absurd hnone (by simp)
    | none =>
      have hall := List.findIdx?_eq_none_iff.mp hfi
      have hmem : r.ag.names.getD j "" ∈ r.getNames := by
        unfold Residue.getNames
        exact List.mem_map_of_mem _ hj
      have hfalse := hall _ hmem
      rw [hname] at hfalse
      simp at hfalse

/-- Witness for `getAtom_lowest_match` on a residue with two atoms named
`CA` at atom indices 0 and 2: the lookup binds index 0. -/
theorem getAtom_lowest_match_witness :
    resE.getAtom (PyKey.str "CA")
        = some { ag := agE, index := 0, acsi := 0 } ∧
      (0 : Nat) ∈ resE.indices ∧ agE.names.getD 0 "" = "CA" := by
  have h := (getAtom_lowest_match resE "CA" (by decide)).1
    { ag := agE, index := 0, acsi := 0 } (by decide)
  exact ⟨by decide, h.2.2.1, h.2.2.2.1⟩

end ProDy
